import Mathlib

/-!
Shallow embedding of munnellg/Mandelbrot (C, four variants) in Lean 4.

The numerical code (all `double`/`float` in C) is embedded over `ℚ` with exact
arithmetic; control flow, state updates and integer arithmetic follow the C
sources line by line.  The embedded functions are:

* `mandelbrot`     — the escape-time kernel (src/sdl/src/mandelbrot.c:47-64,
                     identical loop structure in src/cmd and src/src);
* `zoom`, `scroll` — viewport mutation (src/sdl/src/mandelbrot.c:34-45);
* `update`         — the per-frame iteration-budget advance
                     (src/sdl/src/mandelbrot.c:161-164);
* `colourize`      — the palette lookup (src/sdl/src/mandelbrot.c:66-77);
* `handleEvent`    — one step of the SDL event switch
                     (src/sdl/src/mandelbrot.c:135-159);
* `render`         — the per-pixel frame loop (src/sdl/src/mandelbrot.c:166-185);
* `initState`      — the defaults set by `initialize`
                     (src/sdl/src/mandelbrot.c:79-98).
-/

/-- Fuel-indexed embedding of the C loop
`for (k = 1; k < maxiter; k++) { v = 2*u*v+im; u = u2-v2+re; u2 = u*u;
v2 = v*v; if (u2+v2 >= threshold) break; } return k;`
One unit of fuel corresponds to one execution of the loop body; the
accumulator `k` is the C loop counter. -/
def mandelLoop (re im thresh : ℚ) : ℕ → ℚ → ℚ → ℚ → ℚ → ℤ → ℤ
  | 0, _, _, _, _, k => k
  | fuel+1, u, v, u2, v2, k =>
      let v1 := 2*u*v + im
      let u1 := u2 - v2 + re
      let u21 := u1*u1
      let v21 := v1*v1
      if thresh ≤ u21 + v21 then k
      else mandelLoop re im thresh fuel u1 v1 u21 v21 (k+1)

/-- The escape-time kernel `mandelbrot(re, im, maxiter, threshold)`.
The C loop runs its body at most `maxiter - 1` times (loop counter from 1
while `k < maxiter`), so the fuel is `(maxiter - 1).toNat`; the state starts
at `u = v = 0`, `u2 = u*u = 0`, `v2 = v*v = 0` and `k = 1`. -/
def mandelbrot (re im : ℚ) (maxiter : ℤ) (thresh : ℚ) : ℤ :=
  mandelLoop re im thresh (maxiter - 1).toNat 0 0 0 0 1

/-- The orbit of the quadratic recurrence: `orbit re im n` is the pair
`(u, v)` held by the kernel after `n` executions of the loop body
(both components of the new pair are computed from the old pair, matching
the C code where `v` uses the old `u, v` and `u` uses the cached squares). -/
def orbit (re im : ℚ) : ℕ → ℚ × ℚ
  | 0 => (0, 0)
  | n+1 =>
      let p := orbit re im n
      (p.1*p.1 - p.2*p.2 + re, 2*p.1*p.2 + im)

/-- The cached squared magnitude `u2 + v2` that the kernel tests at step `n`. -/
def sqMag (re im : ℚ) (n : ℕ) : ℚ :=
  (orbit re im n).1 * (orbit re im n).1 + (orbit re im n).2 * (orbit re im n).2

/-- Number of `k++` increments the kernel loop performs when started at orbit
position `m` with the given fuel: 0 if the very next orbit point already
meets the threshold, otherwise one more than the count from the next
position; equals the fuel when no tested point meets the threshold. -/
def escapeSteps (re im thresh : ℚ) : ℕ → ℕ → ℕ
  | _, 0 => 0
  | m, fuel+1 =>
      if thresh ≤ sqMag re im (m+1) then 0
      else escapeSteps re im thresh (m+1) fuel + 1

lemma orbit_succ_fst (re im : ℚ) (m : ℕ) :
    (orbit re im (m+1)).1 =
      (orbit re im m).1 * (orbit re im m).1
        - (orbit re im m).2 * (orbit re im m).2 + re := by
  simp [orbit]

lemma orbit_succ_snd (re im : ℚ) (m : ℕ) :
    (orbit re im (m+1)).2 = 2 * (orbit re im m).1 * (orbit re im m).2 + im := by
  simp [orbit]

lemma sqMag_succ (re im : ℚ) (m : ℕ) :
    sqMag re im (m+1) =
      ((orbit re im m).1 * (orbit re im m).1
        - (orbit re im m).2 * (orbit re im m).2 + re)
      * ((orbit re im m).1 * (orbit re im m).1
        - (orbit re im m).2 * (orbit re im m).2 + re)
      + (2 * (orbit re im m).1 * (orbit re im m).2 + im)
      * (2 * (orbit re im m).1 * (orbit re im m).2 + im) := by
  rw [sqMag, orbit_succ_fst, orbit_succ_snd]

lemma mandelLoop_orbit (re im thresh : ℚ) :
    ∀ (fuel m : ℕ) (k : ℤ),
    mandelLoop re im thresh fuel (orbit re im m).1 (orbit re im m).2
      ((orbit re im m).1 * (orbit re im m).1)
      ((orbit re im m).2 * (orbit re im m).2) k
      = k + escapeSteps re im thresh m fuel := by
  intro fuel
  induction fuel with
  | zero => intro m k; simp [mandelLoop, escapeSteps]
  | succ n ih =>
      intro m k
      simp only [mandelLoop]
      by_cases h : thresh ≤ sqMag re im (m+1)
      · rw [if_pos (by rw [sqMag_succ] at h; exact h)]
        simp [escapeSteps, h]
      · rw [if_neg (by rw [sqMag_succ] at h; exact h)]
        have step := ih (m+1) (k+1)
        rw [orbit_succ_fst, orbit_succ_snd] at step
        rw [step, escapeSteps, if_neg h]
        push_cast
        ring

lemma escapeSteps_le (re im thresh : ℚ) :
    ∀ (fuel m : ℕ), escapeSteps re im thresh m fuel ≤ fuel := by
  intro fuel
  induction fuel with
  | zero => intro m; simp [escapeSteps]
  | succ n ih =>
      intro m
      rw [escapeSteps]
      by_cases h : thresh ≤ sqMag re im (m+1)
      · rw [if_pos h]; omega
      · rw [if_neg h]
        have := ih (m+1)
        omega

lemma escapeSteps_before (re im thresh : ℚ) :
    ∀ (fuel m i : ℕ), 1 ≤ i → i ≤ escapeSteps re im thresh m fuel →
    sqMag re im (m+i) < thresh := by
  intro fuel
  induction fuel with
  | zero => intro m i h1 h2; simp [escapeSteps] at h2; omega
  | succ n ih =>
      intro m i h1 h2
      rw [escapeSteps] at h2
      by_cases h : thresh ≤ sqMag re im (m+1)
      · rw [if_pos h] at h2; omega
      · rw [if_neg h] at h2
        rcases Nat.lt_or_ge i 2 with hi | hi
        · have : i = 1 := by omega
          subst this
          exact lt_of_not_le h
        · have step := ih (m+1) (i-1) (by omega) (by omega)
          have : m + 1 + (i - 1) = m + i := by omega
          rwa [this] at step

lemma escapeSteps_hit (re im thresh : ℚ) :
    ∀ (fuel m : ℕ), escapeSteps re im thresh m fuel < fuel →
    thresh ≤ sqMag re im (m + escapeSteps re im thresh m fuel + 1) := by
  intro fuel
  induction fuel with
  | zero => intro m h; omega
  | succ n ih =>
      intro m h
      rw [escapeSteps] at h ⊢
      by_cases hc : thresh ≤ sqMag re im (m+1)
      · rw [if_pos hc]
        simpa using hc
      · rw [if_neg hc] at h ⊢
        have step := ih (m+1) (by omega)
        have harg : m + 1 + escapeSteps re im thresh (m+1) n + 1
            = m + (escapeSteps re im thresh (m+1) n + 1) + 1 := by omega
        rwa [harg] at step

lemma mandelbrot_eq_escapeSteps (re im thresh : ℚ) (maxiter : ℤ) :
    mandelbrot re im maxiter thresh
      = 1 + escapeSteps re im thresh 0 (maxiter - 1).toNat := by
  have h := mandelLoop_orbit re im thresh (maxiter - 1).toNat 0 1
  simp only [orbit] at h
  simpa [mandelbrot] using h

/-- Claim C1: for every input point `(re, im)`, every `maxIterations ≥ 1` and
every threshold, the escape kernel returns `k` with `1 ≤ k ≤ maxIterations`
(terminating after at most `maxIterations - 1` loop steps by construction of
the fuel); it returns `k < maxIterations` exactly when the cached squared
magnitude of the orbit first reaches or exceeds the threshold at step `k`,
and returns exactly `maxIterations` when the squared magnitude stays below
the threshold for all steps `1 .. maxIterations - 1`. -/
theorem mandelbrot_escape_characterization (re im thresh : ℚ) (maxiter : ℤ)
    (h : 1 ≤ maxiter) :
    1 ≤ mandelbrot re im maxiter thresh ∧
    mandelbrot re im maxiter thresh ≤ maxiter ∧
    (∀ k : ℕ, 1 ≤ k → (k : ℤ) < maxiter →
      (mandelbrot re im maxiter thresh = k ↔
        thresh ≤ sqMag re im k ∧
          ∀ j : ℕ, 1 ≤ j → j < k → sqMag re im j < thresh)) ∧
    ((∀ j : ℕ, 1 ≤ j → (j : ℤ) < maxiter → sqMag re im j < thresh) →
      mandelbrot re im maxiter thresh = maxiter) := by
  have hF : (((maxiter - 1).toNat : ℤ)) = maxiter - 1 :=
    Int.toNat_of_nonneg (by omega)
  have hmb := mandelbrot_eq_escapeSteps re im thresh maxiter
  have hle := escapeSteps_le re im thresh (maxiter - 1).toNat 0
  refine ⟨by omega, by omega, ?_, ?_⟩
  · intro k hk1 hk2
    constructor
    · intro hres
      have hek : escapeSteps re im thresh 0 (maxiter - 1).toNat + 1 = k := by
        omega
      have hlt : escapeSteps re im thresh 0 (maxiter - 1).toNat
          < (maxiter - 1).toNat := by omega
      have hhit := escapeSteps_hit re im thresh (maxiter - 1).toNat 0 hlt
      have hidx : 0 + escapeSteps re im thresh 0 (maxiter - 1).toNat + 1 = k := by
        omega
      rw [hidx] at hhit
      refine ⟨hhit, ?_⟩
      intro j hj1 hj2
      have hb := escapeSteps_before re im thresh (maxiter - 1).toNat 0 j hj1
        (by omega)
      rwa [zero_add] at hb
    · rintro ⟨hk, hall⟩
      by_contra hne
      rcases Nat.lt_or_ge (escapeSteps re im thresh 0 (maxiter - 1).toNat)
        (k - 1) with hl | hg
      · have hlt : escapeSteps re im thresh 0 (maxiter - 1).toNat
            < (maxiter - 1).toNat := by omega
        have hhit := escapeSteps_hit re im thresh (maxiter - 1).toNat 0 hlt
        have hsm := hall (escapeSteps re im thresh 0 (maxiter - 1).toNat + 1)
          (by omega) (by omega)
        have hidx : 0 + escapeSteps re im thresh 0 (maxiter - 1).toNat + 1
            = escapeSteps re im thresh 0 (maxiter - 1).toNat + 1 := by omega
        rw [hidx] at hhit
        linarith
      · have hge : k ≤ escapeSteps re im thresh 0 (maxiter - 1).toNat := by
          omega
        have hb := escapeSteps_before re im thresh (maxiter - 1).toNat 0 k hk1
          hge
        rw [zero_add] at hb
        linarith
  · intro hall
    rcases Nat.lt_or_ge (escapeSteps re im thresh 0 (maxiter - 1).toNat)
      ((maxiter - 1).toNat) with hl | hg
    · exfalso
      have hhit := escapeSteps_hit re im thresh (maxiter - 1).toNat 0 hl
      have hsm := hall (escapeSteps re im thresh 0 (maxiter - 1).toNat + 1)
        (by omega) (by omega)
      have hidx : 0 + escapeSteps re im thresh 0 (maxiter - 1).toNat + 1
          = escapeSteps re im thresh 0 (maxiter - 1).toNat + 1 := by omega
      rw [hidx] at hhit
      linarith
    · omega

/-- Witness for C1: at the concrete input `(2, 2)` with budget 5 and
threshold 4 the hypotheses hold and the kernel result lies in `[1, 5]`. -/
theorem mandelbrot_escape_characterization_witness :
    (1 : ℤ) ≤ 5 ∧ 1 ≤ mandelbrot 2 2 5 4 ∧ mandelbrot 2 2 5 4 ≤ 5 :=
  ⟨by decide, (mandelbrot_escape_characterization 2 2 4 5 (by decide)).1,
    (mandelbrot_escape_characterization 2 2 4 5 (by decide)).2.1⟩

lemma orbit_origin : ∀ n : ℕ, orbit 0 0 n = (0, 0) := by
  intro n
  induction n with
  | zero => rfl
  | succ m ih => simp [orbit, ih]

lemma sqMag_origin (n : ℕ) : sqMag 0 0 n = 0 := by
  simp [sqMag, orbit_origin]

lemma escapeSteps_origin (thresh : ℚ) (h : ¬ thresh ≤ 0) :
    ∀ (fuel m : ℕ), escapeSteps 0 0 thresh m fuel = fuel := by
  intro fuel
  induction fuel with
  | zero => intro m; rfl
  | succ n ih =>
      intro m
      rw [escapeSteps, sqMag_origin, if_neg h, ih]

/-- Claim C6: `iterate((0,0), 50, 4.0)` returns exactly 50; the orbit of the
origin stays at zero forever, so the squared magnitude never reaches the
threshold and the kernel returns the full budget. -/
theorem mandelbrot_origin_interior :
    mandelbrot 0 0 50 4 = 50 ∧ ∀ n : ℕ, orbit 0 0 n = (0, 0) := by
  constructor
  · have h1 := mandelbrot_eq_escapeSteps 0 0 4 50
    have h2 : ((50 : ℤ) - 1).toNat = 49 := by decide
    rw [h2, escapeSteps_origin 4 (by norm_num)] at h1
    rw [h1]
    norm_num
  · exact orbit_origin

/-- Claim C7: for every input point and threshold, calling the kernel with
`maxIterations ≤ 1` (including `maxIterations ≤ 0`) is total (no crash, no
division) and returns exactly 1: the loop guard `k < maxiter` fails at
`k = 1`, so the escape test is never attempted. -/
theorem mandelbrot_low_budget (re im thresh : ℚ) (maxiter : ℤ)
    (h : maxiter ≤ 1) :
    mandelbrot re im maxiter thresh = 1 := by
  have hz : (maxiter - 1).toNat = 0 := by omega
  rw [mandelbrot, hz]
  rfl

/-- Witness for C7: at `maxIterations = -3` (a value `≤ 0`) the kernel
returns 1. -/
theorem mandelbrot_low_budget_witness :
    (-3 : ℤ) ≤ 1 ∧ mandelbrot 0 0 (-3) 4 = 1 :=
  ⟨by decide, mandelbrot_low_budget 0 0 4 (-3) (by decide)⟩

/-- The program state `struct state` (src/sdl/src/mandelbrot.c:15-32),
restricted to the fields the core logic reads or writes; the SDL
window/renderer/texture handles and the fullscreen flag are platform glue.
`quit` is the C `int` flag viewed as a Bool (the C code only ever stores 0
or 1 in it). -/
structure State where
  screen_width : ℤ
  screen_height : ℤ
  screen_halfw : ℤ
  screen_halfh : ℤ
  scale : ℚ
  centre_x : ℚ
  centre_y : ℚ
  thresh : ℚ
  maxiter : ℤ
  curiter : ℤ
  quit : Bool

/-- `ZOOM_FACTOR` (src/sdl/src/mandelbrot.c:13): 0.75 as an exact rational. -/
def ZOOM_FACTOR : ℚ := 3/4

/-- `zoom` (src/sdl/src/mandelbrot.c:34-37):
`s->scale *= (dir < 0)? 1.0/ZOOM_FACTOR : ZOOM_FACTOR;` -/
def zoom (s : State) (dir : ℤ) : State :=
  { s with scale := s.scale * (if dir < 0 then 1/ZOOM_FACTOR else ZOOM_FACTOR) }

/-- `scroll` (src/sdl/src/mandelbrot.c:39-45):
`dx = -xrel*scale; dy = -yrel*scale; centre_x += dx; centre_y += dy;` -/
def scroll (s : State) (xrel yrel : ℤ) : State :=
  { s with centre_x := s.centre_x + (-xrel : ℤ) * s.scale,
           centre_y := s.centre_y + (-yrel : ℤ) * s.scale }

/-- `update` (src/sdl/src/mandelbrot.c:161-164):
`if (s->curiter < s->maxiter) { s->curiter++; }` -/
def update (s : State) : State :=
  if s.curiter < s.maxiter then { s with curiter := s.curiter + 1 } else s

/-- The palette array `colours` in `colourize`
(src/sdl/src/mandelbrot.c:69-74), 16 packed colours. -/
def colours : List ℕ :=
  [0x421E0F, 0x19071A, 0x09012F, 0x040449,
   0x000764, 0x0C2C8A, 0x1852B1, 0x397DD1,
   0x86B5E5, 0xD3ECF8, 0xF1E9BF, 0xF8C95F,
   0xFFAA00, 0xCC8000, 0x995700, 0x6A3403]

/-- `colourize` (src/sdl/src/mandelbrot.c:66-77): `colours[k % num_colours]`.
The kernel only ever produces `k ≥ 1`, for which the C `int`-to-`size_t`
modulo agrees with `Int.emod`. -/
def colourize (k : ℤ) : ℕ :=
  colours.getD (k % (colours.length : ℤ)).toNat 0

/-- The pixel-to-plane transform inlined in `render`
(src/sdl/src/mandelbrot.c:172-176): `camera = pixel - screen_half;`
`world = camera*scale + centre`. -/
def pixelToPlane (s : State) (x y : ℤ) : ℚ × ℚ :=
  (((x - s.screen_halfw : ℤ) : ℚ) * s.scale + s.centre_x,
   ((y - s.screen_halfh : ℤ) : ℚ) * s.scale + s.centre_y)

/-- The body of the per-pixel loop in `render`
(src/sdl/src/mandelbrot.c:172-178) at flat index `i`:
`camera_x = i%w - halfw; camera_y = i/w - halfh;`
`world = camera*scale + centre; k = mandelbrot(world, curiter, thresh);`
`pixels[i] = (k >= curiter) ? 0 : colourize(k);` -/
def renderPixel (s : State) (i : ℤ) : ℕ :=
  let camera_x := i % s.screen_width - s.screen_halfw
  let camera_y := i / s.screen_width - s.screen_halfh
  let world_x : ℚ := (camera_x : ℚ) * s.scale + s.centre_x
  let world_y : ℚ := (camera_y : ℚ) * s.scale + s.centre_y
  let k := mandelbrot world_x world_y s.curiter s.thresh
  if s.curiter ≤ k then 0 else colourize k

/-- `render` (src/sdl/src/mandelbrot.c:166-185) as the pixel buffer it
fills: one cell per flat index `i < screen_width*screen_height`, each cell
a pure function of `i` (the OpenMP parallel-for writes disjoint cells). -/
def render (s : State) : List ℕ :=
  (List.range (s.screen_width * s.screen_height).toNat).map
    (fun (i : ℕ) => renderPixel s (i : ℤ))

/-- The state produced by `initialize` (src/sdl/src/mandelbrot.c:79-98):
`memset` zeroes `quit` and `curiter`, then the defaults are assigned;
`scale = 4.0/screen_height` with the default 800x600 window. -/
def initState : State :=
  { screen_width := 800
    screen_height := 600
    screen_halfw := 800/2
    screen_halfh := 600/2
    scale := 4/600
    centre_x := 0
    centre_y := 0
    thresh := 4
    maxiter := 255
    curiter := 0
    quit := false }

/-- `SDLK_q`: the SDL keycode of the designated quit key (ASCII `q`). -/
def SDLK_q : ℤ := 113

/-- The input events distinguished by the `switch` in `handle_events`
(src/sdl/src/mandelbrot.c:135-159): window-close, a key press carrying its
keycode, a wheel event carrying its `y` magnitude and whether the platform
reports flipped ("natural") scrolling, a motion event carrying the relative
delta and whether the left button is held, and every other SDL event type
collapsed into `other`. -/
inductive Event where
  | quit
  | keydown (sym : ℤ)
  | mousewheel (y : ℤ) (flipped : Bool)
  | mousemotion (xrel yrel : ℤ) (lheld : Bool)
  | other
deriving DecidableEq

/-- One iteration of the `switch` in `handle_events`
(src/sdl/src/mandelbrot.c:138-157). Note `SDL_KEYDOWN` executes
`s->quit = e.key.keysym.sym == SDLK_q;` — an assignment, not a
conditional set. -/
def handleEvent (s : State) (e : Event) : State :=
  match e with
  | .quit => { s with quit := true }
  | .keydown sym => { s with quit := sym == SDLK_q }
  | .mousewheel y flipped =>
      if y ≠ 0 then zoom s (if flipped then -y else y) else s
  | .mousemotion xrel yrel lheld =>
      if lheld then scroll s xrel yrel else s
  | .other => s

/-- `handle_events` drains the pending event queue, applying `handleEvent`
in order (src/sdl/src/mandelbrot.c:135-159). -/
def handleEvents (s : State) (es : List Event) : State :=
  es.foldl handleEvent s

lemma update_curiter (s : State) :
    (update s).curiter =
      if s.curiter < s.maxiter then s.curiter + 1 else s.curiter := by
  rw [update]; split <;> rfl

lemma update_maxiter (s : State) : (update s).maxiter = s.maxiter := by
  rw [update]; split <;> rfl

lemma update_iterate_reach :
    ∀ (n : ℕ) (s : State), s.curiter ≤ s.maxiter → s.maxiter ≤ s.curiter + n →
    (update^[n] s).curiter = s.maxiter := by
  intro n
  induction n with
  | zero =>
      intro s h1 h2
      simp only [Function.iterate_zero, id]
      omega
  | succ n ih =>
      intro s h1 h2
      rw [Function.iterate_succ_apply]
      by_cases h : s.curiter < s.maxiter
      · have hc : (update s).curiter = s.curiter + 1 := by
          rw [update_curiter, if_pos h]
        have hm := update_maxiter s
        have := ih (update s) (by omega) (by omega)
        rw [this, hm]
      · have heq : update s = s := by rw [update, if_neg h]
        rw [heq]
        exact ih s h1 (by omega)

/-- Claim C3: each call to `update` increments `curiter` by exactly 1 when
`curiter < maxiter` and leaves the state unchanged otherwise; the invariant
`curiter ≤ maxiter` is preserved, `curiter` never decreases, and starting
from `curiter = 0`, after `maxiter + 5` calls `curiter = maxiter`. -/
theorem advance_budget_spec :
    (∀ s : State, s.curiter < s.maxiter → (update s).curiter = s.curiter + 1) ∧
    (∀ s : State, ¬ s.curiter < s.maxiter → update s = s) ∧
    (∀ s : State, s.curiter ≤ s.maxiter →
      (update s).curiter ≤ (update s).maxiter) ∧
    (∀ s : State, s.curiter ≤ (update s).curiter) ∧
    (∀ s : State, s.curiter = 0 → 0 ≤ s.maxiter →
      (update^[(s.maxiter + 5).toNat] s).curiter = s.maxiter) := by
  refine ⟨?_, ?_, ?_, ?_, ?_⟩
  · intro s h; rw [update_curiter, if_pos h]
  · intro s h; rw [update, if_neg h]
  · intro s h
    rw [update_maxiter, update_curiter]
    by_cases hc : s.curiter < s.maxiter
    · rw [if_pos hc]; omega
    · rw [if_neg hc]; omega
  · intro s
    rw [update_curiter]
    by_cases hc : s.curiter < s.maxiter
    · rw [if_pos hc]; omega
    · rw [if_neg hc]
  · intro s h0 hm
    have ht : ((s.maxiter + 5).toNat : ℤ) = s.maxiter + 5 :=
      Int.toNat_of_nonneg (by omega)
    exact update_iterate_reach _ s (by omega) (by omega)

/-- Witness for C3: from the initial state (`curiter = 0`, `maxiter = 255`),
after `maxiter + 5 = 260` calls to `update`, `curiter = 255`. -/
theorem advance_budget_spec_witness :
    initState.curiter = 0 ∧ (0 : ℤ) ≤ initState.maxiter ∧
    (update^[(initState.maxiter + 5).toNat] initState).curiter
      = initState.maxiter :=
  ⟨rfl, by decide, advance_budget_spec.2.2.2.2 initState rfl (by decide)⟩

/-- Claim C4: a zoom event with positive direction multiplies `scale` by
exactly `ZOOM_FACTOR = 3/4` (so with `scale > 0` it strictly decreases), a
zoom with negative direction multiplies it by exactly `1/ZOOM_FACTOR` (so
it strictly increases), zoom-in followed by zoom-out restores `scale`
exactly (the embedding is exact rational arithmetic), and zoom leaves the
centre and the screen dimensions unchanged. -/
theorem zoom_scale_spec :
    ZOOM_FACTOR = 3/4 ∧
    (∀ (s : State) (d : ℤ), 0 < d → (zoom s d).scale = s.scale * ZOOM_FACTOR) ∧
    (∀ (s : State) (d : ℤ), d < 0 →
      (zoom s d).scale = s.scale * (1/ZOOM_FACTOR)) ∧
    (∀ (s : State) (d : ℤ), 0 < d → 0 < s.scale →
      (zoom s d).scale < s.scale) ∧
    (∀ (s : State) (d : ℤ), d < 0 → 0 < s.scale →
      s.scale < (zoom s d).scale) ∧
    (∀ (s : State) (d e : ℤ), 0 < d → e < 0 →
      (zoom (zoom s d) e).scale = s.scale) ∧
    (∀ (s : State) (d : ℤ),
      (zoom s d).centre_x = s.centre_x ∧ (zoom s d).centre_y = s.centre_y ∧
      (zoom s d).screen_width = s.screen_width ∧
      (zoom s d).screen_height = s.screen_height) := by
  have hpos : ∀ (s : State) (d : ℤ), 0 < d →
      (zoom s d).scale = s.scale * ZOOM_FACTOR := by
    intro s d hd
    rw [zoom]
    simp only [if_neg (by omega : ¬ d < 0)]
  have hneg : ∀ (s : State) (d : ℤ), d < 0 →
      (zoom s d).scale = s.scale * (1/ZOOM_FACTOR) := by
    intro s d hd
    rw [zoom]
    simp only [if_pos hd]
  refine ⟨rfl, hpos, hneg, ?_, ?_, ?_, ?_⟩
  · intro s d hd hs
    rw [hpos s d hd, ZOOM_FACTOR]
    linarith
  · intro s d hd hs
    rw [hneg s d hd, ZOOM_FACTOR]
    norm_num
    linarith
  · intro s d e hd he
    rw [hneg _ e he, hpos s d hd, ZOOM_FACTOR]
    norm_num
    ring
  · intro s d
    exact ⟨rfl, rfl, rfl, rfl⟩

/-- Witness for C4: zoom-in then zoom-out from the initial state restores
`scale`, and a zoom-in strictly decreases the (positive) initial scale. -/
theorem zoom_scale_spec_witness :
    (0 : ℤ) < 1 ∧ (-1 : ℤ) < 0 ∧
    (zoom (zoom initState 1) (-1)).scale = initState.scale :=
  ⟨by decide, by decide,
    zoom_scale_spec.2.2.2.2.2.1 initState 1 (-1) (by decide) (by decide)⟩

/-- Claim C5: with the centred-scale policy (`screen_halfw` and
`screen_halfh` are the integer halves of the screen dimensions, as set by
`initialize`), the pixel-to-plane transform maps the centre pixel
`(screenWidth/2, screenHeight/2)` exactly to `(centre_x, centre_y)`, for
any scale and any screen dimensions. -/
theorem pixelToPlane_centre (s : State)
    (hw : s.screen_halfw = s.screen_width / 2)
    (hh : s.screen_halfh = s.screen_height / 2) :
    pixelToPlane s (s.screen_width / 2) (s.screen_height / 2)
      = (s.centre_x, s.centre_y) := by
  rw [pixelToPlane, hw, hh]
  simp

/-- Witness for C5: in the initial 800x600 state the centre pixel
`(400, 300)` maps exactly to the centre `(0, 0)`. -/
theorem pixelToPlane_centre_witness :
    initState.screen_halfw = initState.screen_width / 2 ∧
    initState.screen_halfh = initState.screen_height / 2 ∧
    pixelToPlane initState (initState.screen_width / 2)
        (initState.screen_height / 2)
      = (initState.centre_x, initState.centre_y) :=
  ⟨by decide, by decide, pixelToPlane_centre initState (by decide) (by decide)⟩

/-- Claim C8: `scale > 0` is an invariant: it is strictly positive at
initialization (`4.0/screen_height` with the default height 600), every
zoom multiplies it by a strictly positive constant (`3/4` or `4/3`) and so
preserves positivity, and pan (`scroll`) does not change it at all. -/
theorem scale_positive_invariant :
    initState.scale = 4/600 ∧ 0 < initState.scale ∧
    (∀ (s : State) (d : ℤ), 0 < s.scale → 0 < (zoom s d).scale) ∧
    (∀ (s : State) (xrel yrel : ℤ), (scroll s xrel yrel).scale = s.scale) := by
  refine ⟨rfl, by norm_num [initState], ?_, ?_⟩
  · intro s d hs
    rw [zoom]
    by_cases hd : d < 0
    · simp only [if_pos hd, ZOOM_FACTOR]
      positivity
    · simp only [if_neg hd, ZOOM_FACTOR]
      positivity
  · intro s xrel yrel
    rfl

/-- Witness for C8: the initial scale is positive and stays positive after
a zoom. -/
theorem scale_positive_invariant_witness :
    0 < initState.scale ∧ 0 < (zoom initState 1).scale :=
  ⟨scale_positive_invariant.2.1,
    scale_positive_invariant.2.2.1 initState 1 scale_positive_invariant.2.1⟩

lemma getD_map_range (f : ℕ → ℕ) (n i : ℕ) (hi : i < n) :
    ((List.range n).map f).getD i 0 = f i := by
  rw [List.getD_eq_getElem?_getD, List.getElem?_map, List.getElem?_range hi]
  rfl

/-- Claim C2: `render` produces a buffer of exactly
`screenWidth*screenHeight` cells, and the cell at every flat index
`i < screenWidth*screenHeight` is exactly: split `i` into
`(x, y) = (i mod screenWidth, i div screenWidth)`, map through the
pixel-to-plane transform, run the escape kernel with the current budget
`curiter`, and store 0 (background) when the result `k ≥ curiter`,
otherwise the palette colour `colours[k mod 16]`.  Each cell is a pure
function of its own index, so pixel `i` affects no other cell. -/
theorem render_frame_spec (s : State) (i : ℕ)
    (hi : (i : ℤ) < s.screen_width * s.screen_height) :
    (render s).length = (s.screen_width * s.screen_height).toNat ∧
    (render s).getD i 0 =
      (let x : ℤ := (i : ℤ) % s.screen_width
       let y : ℤ := (i : ℤ) / s.screen_width
       let p := pixelToPlane s x y
       let k := mandelbrot p.1 p.2 s.curiter s.thresh
       if s.curiter ≤ k then 0 else colours.getD (k % 16).toNat 0) := by
  constructor
  · rw [render, List.length_map, List.length_range]
  · have hlt : i < (s.screen_width * s.screen_height).toNat := by omega
    rw [render, getD_map_range _ _ _ hlt]
    rfl

/-- A small concrete state (2x2 screen, budget 1) used to instantiate the
frame-rendering theorem. -/
def testState : State :=
  { screen_width := 2
    screen_height := 2
    screen_halfw := 1
    screen_halfh := 1
    scale := 1
    centre_x := 0
    centre_y := 0
    thresh := 4
    maxiter := 255
    curiter := 1
    quit := false }

/-- Witness for C2: a concrete 2x2 state with budget 1; the cell at index 0
matches the specified composition (here the background colour, since the
kernel returns its minimum 1 and `1 ≥ curiter`). -/
theorem render_frame_spec_witness :
    ((0 : ℕ) : ℤ) < testState.screen_width * testState.screen_height ∧
    (render testState).getD 0 0 = 0 := by
  have h := render_frame_spec testState 0 (by decide)
  refine ⟨by decide, ?_⟩
  rw [h.2]
  decide

/-- Counterexample to claim C9 as stated: a key-press of a key other than
the quit key (`a`, keycode 97) is not in the listed event kinds, yet it
does change the program state when the quit flag is already set, because
`SDL_KEYDOWN` executes the assignment `s->quit = (sym == SDLK_q)`, which
overwrites a previously set quit flag with 0. -/
theorem handle_event_keydown_counterexample :
    handleEvent { initState with quit := true } (Event.keydown 97)
      ≠ { initState with quit := true } := by
  intro h
  have hq := congrArg State.quit h
  simp [handleEvent, SDLK_q] at hq

/-- Claim C9 as amended: wheel events with zero magnitude, motion events
without the left button, and all other event kinds leave the state
unchanged; a key-press event stores `(pressed key == quit key)` into the
quit flag and changes nothing else — so from a state whose quit flag is
clear, a non-quit key-press leaves the entire state unchanged — and,
from a state whose quit flag is clear, the window-close signal and the
quit key-press are the only events that set the stop flag. -/
theorem handle_event_spec :
    (∀ (s : State) (flipped : Bool),
      handleEvent s (Event.mousewheel 0 flipped) = s) ∧
    (∀ (s : State) (xrel yrel : ℤ),
      handleEvent s (Event.mousemotion xrel yrel false) = s) ∧
    (∀ s : State, handleEvent s Event.other = s) ∧
    (∀ (s : State) (sym : ℤ),
      handleEvent s (Event.keydown sym) = { s with quit := sym == SDLK_q }) ∧
    (∀ (s : State) (sym : ℤ), sym ≠ SDLK_q → s.quit = false →
      handleEvent s (Event.keydown sym) = s) ∧
    (∀ (s : State) (e : Event), s.quit = false →
      (handleEvent s e).quit = true →
      e = Event.quit ∨ e = Event.keydown SDLK_q) := by
  refine ⟨?_, ?_, ?_, ?_, ?_, ?_⟩
  · intro s flipped
    simp [handleEvent]
  · intro s xrel yrel
    simp [handleEvent]
  · intro s
    rfl
  · intro s sym
    rfl
  · intro s sym hsym hq
    have hb : (sym == SDLK_q) = false := beq_eq_false_iff_ne.mpr hsym
    show ({ s with quit := sym == SDLK_q }) = s
    rw [hb, ← hq]
  · intro s e hq htrue
    cases e with
    | quit => exact Or.inl rfl
    | keydown sym =>
        have hb : (sym == SDLK_q) = true := htrue
        have : sym = SDLK_q := by simpa using hb
        exact Or.inr (by rw [this])
    | mousewheel y flipped =>
        exfalso
        by_cases hy : y ≠ 0 <;>
          simp [handleEvent, hy, zoom, hq] at htrue
    | mousemotion xrel yrel lheld =>
        exfalso
        cases lheld <;> simp [handleEvent, scroll, hq] at htrue
    | other =>
        exfalso
        simp [handleEvent, hq] at htrue

/-- Witness for C9 (amended): pressing `a` (keycode 97) with the quit flag
clear leaves the initial state exactly unchanged. -/
theorem handle_event_spec_witness :
    (97 : ℤ) ≠ SDLK_q ∧ initState.quit = false ∧
    handleEvent initState (Event.keydown 97) = initState :=
  ⟨by decide, rfl, handle_event_spec.2.2.2.2.1 initState 97 (by decide) rfl⟩

lemma handleEvent_curiter (s : State) (e : Event) :
    (handleEvent s e).curiter = s.curiter := by
  cases e with
  | quit => rfl
  | keydown sym => rfl
  | mousewheel y flipped =>
      simp only [handleEvent]
      split <;> rfl
  | mousemotion xrel yrel lheld =>
      simp only [handleEvent]
      split <;> rfl
  | other => rfl

lemma handleEvent_maxiter (s : State) (e : Event) :
    (handleEvent s e).maxiter = s.maxiter := by
  cases e with
  | quit => rfl
  | keydown sym => rfl
  | mousewheel y flipped =>
      simp only [handleEvent]
      split <;> rfl
  | mousemotion xrel yrel lheld =>
      simp only [handleEvent]
      split <;> rfl
  | other => rfl

lemma handleEvents_budget (es : List Event) :
    ∀ s : State, (handleEvents s es).curiter = s.curiter ∧
      (handleEvents s es).maxiter = s.maxiter := by
  induction es with
  | nil => intro s; exact ⟨rfl, rfl⟩
  | cons e es ih =>
      intro s
      have h := ih (handleEvent s e)
      simp only [handleEvents, List.foldl_cons] at h ⊢
      rw [h.1, h.2, handleEvent_curiter, handleEvent_maxiter]
      exact ⟨rfl, rfl⟩

lemma mandelbrot_budget_one (re im thresh : ℚ) :
    mandelbrot re im 1 thresh = 1 := rfl

lemma getD_zero_of_forall :
    ∀ (l : List ℕ), (∀ x ∈ l, x = 0) → ∀ i : ℕ, l.getD i 0 = 0 := by
  intro l
  induction l with
  | nil => intro _ i; cases i <;> rfl
  | cons a t ih =>
      intro h i
      cases i with
      | zero => simpa using h a (by simp)
      | succ j =>
          rw [List.getD_cons_succ]
          exact ih (fun x hx => h x (by simp [hx])) j

/-- Claim C10: the first rendered frame is entirely background.  `curiter`
is 0 in the initial state; whatever events the first `handle_events` drains,
they do not touch the budget, so the per-frame `update` raises `curiter`
to exactly 1 before the first pixel loop; the kernel called with budget 1
returns 1 at every point, so `k >= curiter` holds at every pixel and every
cell of the first frame holds the zero background colour. -/
theorem first_frame_background (es : List Event) (i : ℕ) :
    initState.curiter = 0 ∧
    (update (handleEvents initState es)).curiter = 1 ∧
    (render (update (handleEvents initState es))).getD i 0 = 0 := by
  have hb := handleEvents_budget es initState
  have hup : (update (handleEvents initState es)).curiter = 1 := by
    rw [update_curiter, hb.1, hb.2]
    norm_num [initState]
  refine ⟨rfl, hup, ?_⟩
  apply getD_zero_of_forall
  intro x hx
  simp only [render, List.mem_map, List.mem_range] at hx
  obtain ⟨j, _, rfl⟩ := hx
  simp [renderPixel, hup, mandelbrot_budget_one]
